import Mathlib

/-!
# Verification of the feedme crawler (src/feedme.py, src/config.py)

Shallow embedding of the resumable crawl engine and feed-merge logic of
`feedme.py`.  Modelling conventions:

* Python `datetime` values are modelled as `Int` (an abstract instant); the
  precomputed `age_in_days` field of a `Listing` is carried as an `Int` field
  exactly as the source carries it.
* Python `float` prices are modelled as `Int`; no claim depends on numeric
  formatting, only on which strings/fields are produced structurally.
* The paginated API (`get_results` + `call_api`) seen from `get_listings` is
  modelled as an environment `env : String → QueryResult` mapping a search url
  to the sequence of listings that processing the query yields together with
  how the query ends: normally (`ok`), with a per-query error that
  `get_listings` catches and logs (`recoverableError`, i.e.
  `BadSearchURLException` or `APIException`), or with
  `TooManyAPICallsException` (`quotaExceeded`).  The items in the outcome are
  the listings yielded before the exception arises.
* The wall-clock budget check `minutes and ((elapsed / 60) > minutes)` at the
  end of each loop iteration is modelled as `timeUp : Nat → Bool` applied to
  the 1-based index of the query just processed (`enumerate(..., start=1)`);
  `timeUp = fun _ => false` models `minutes is None`.
* The checkpoint pickle file (`load_next_url`/`save_next_url`/
  `clear_next_url`) is modelled as an `Option String`: the initial value is an
  input, the final value is returned in `CrawlResult.checkpoint` (`none` means
  the file is absent / was deleted).
* The retry loop of `call_api` is modelled over an attempt oracle
  `attempt : Nat → AttemptOutcome α`; `requestError` models
  `httpx.RequestError`, `badStatus` a non-200 response (with the
  quota-signature flag), `success` a 200 response.  The returned `List Nat`
  records the `time.sleep` pauses performed.
* `main`'s consumption loop is modelled by `addNewListings` (the per-listing
  inclusion loop, including the `break` once `entry_count` exceeds
  `MAX_FEED_ENTRIES`) and `copy_remaining_entries`; `mainRun` composes them
  with the crawl.  When `main` breaks out of its `for` loop, CPython drops the
  last reference to the `get_listings` generator, which closes it: a
  `GeneratorExit` is raised at the suspended `yield`, is caught by neither
  `except` clause, and the `finally` block persists `last_url` — the url of
  the query in progress.  `mainRun.checkpoint` reproduces this.
-/

namespace Feedme

/-- Default of `config.MAX_FEED_ENTRIES` (`config.py`); the theorems are
parametric in the configured value. -/
def MAX_FEED_ENTRIES : Nat := 1000

/-- Default of `config.MAX_LISTING_AGE_DAYS` (`config.py`). -/
def MAX_LISTING_AGE_DAYS : Int := 84

/-- Model of the `Listing` named tuple of `feedme.py`.  `search_params` is
modelled as an association list (only its `"q"` key is ever read, by
`describe`); `price_suggestions` likewise. -/
structure Listing where
  id : String
  url : String
  title : String
  startTime : Int
  ageInDays : Int
  imageUrl : String
  price : Int
  shippingPrice : Option Int
  country : String
  buyItNow : Bool
  searchParams : List (String × String)
  priceSuggestions : List (String × Int)
  releaseId : Option Int
deriving DecidableEq, Repr

/-- Model of an `atoma` `AtomEntry` as read from the previous feed file:
the fields `copy_entry` consults (`id_`, `title.value`, `updated`,
`links[0].href`, `content`). -/
structure AtomEntry where
  id_ : String
  title : String
  updated : Option Int
  link : String
  content : Option String
deriving DecidableEq, Repr

/-- An entry appended to the output `FeedGenerator` (`fg.add_entry` plus the
`fe.id/title/updated/link/content` setters). -/
structure FeedEntry where
  id : String
  title : String
  updated : Int
  link : String
  content : Option String
deriving DecidableEq, Repr

def lookupStr (ps : List (String × String)) (k : String) : Option String :=
  (ps.find? (fun p => p.1 == k)).map Prod.snd

def lookupPrice (ps : List (String × Int)) (k : String) : Option Int :=
  (ps.find? (fun p => p.1 == k)).map Prod.snd

/-- Model of `describe` (the HTML description body).  Numeric formatting is
abstracted by `toString`; the structure (which fragments appear, and in which
order) follows the source. -/
def describe (listing : Listing) : String :=
  let base :=
    "<p>$" ++ toString listing.price ++ (if listing.buyItNow then " (BIN)" else "") ++ "</p>"
      ++ "<p>ships from " ++ listing.country ++ "</p>"
  let withShipping :=
    base ++ (match listing.shippingPrice with
      | some sp => "<p>shipping: $" ++ toString sp ++ "</p>"
      | none => "")
  let withVgp :=
    withShipping ++ (match lookupPrice listing.priceSuggestions "VGP" with
      | some v => "<p>suggested price (VGP): $" ++ toString v ++ "</p>"
      | none => "")
  let withNm :=
    withVgp ++ (match lookupPrice listing.priceSuggestions "NM" with
      | some v => "<p>suggested price (NM): $" ++ toString v ++ "</p>"
      | none => "")
  let withImg := withNm ++ "<img src=\"" ++ listing.imageUrl ++ "\"/>"
  match lookupStr listing.searchParams "q" with
  | some q => withImg ++ "<p>" ++ q ++ "</p>"
  | none => withImg

/-- The tag-uri literal, appearing both in the `tag_uri` regex and in the
f-string `main` uses to mint ids for new entries. -/
def tagLit : String := "tag:feedme.aeshin.org,2022:item-"

/-- The id `main` gives the entry synthesized for a listing with id `s`. -/
def itemTag (s : String) : String := tagLit ++ s

/-- One pattern character against one subject character.  The dots in the
source pattern `tag:feedme.aeshin.org,2022:item-(\d+)` are unescaped regex
wildcards, so a pattern `.` matches any character. -/
def patCharMatches (p c : Char) : Bool := p == '.' || p == c

/-- Anchored match of the literal part of the `tag_uri` regex (Python
`re.match` anchors at the start only); returns the remainder of the subject
on success. -/
def matchPat : List Char → List Char → Option (List Char)
  | [], rest => some rest
  | _ :: _, [] => none
  | p :: ps, c :: cs => if patCharMatches p c then matchPat ps cs else none

/-- Model of `parse_listing_id`: `tag_uri.match(entry_id)` followed by
`m.group(1)`.  The greedy `(\d+)` group is the maximal digit run following
the literal; `re.match` does not anchor at the end, so trailing characters
after the digits are ignored. -/
def parse_listing_id (entryId : String) : Option String :=
  match matchPat tagLit.data entryId.data with
  | none => none
  | some rest =>
      let digits := rest.takeWhile Char.isDigit
      if digits.isEmpty then none else some (String.mk digits)

/-- Model of `include_in_feed`: the listing id is not in `listing_ids` and the
age bound holds (`config.MAX_LISTING_AGE_DAYS` is the `maxAge` parameter). -/
def include_in_feed (maxAge : Int) (listing : Listing) (listingIds : List String) : Bool :=
  decide (listing.id ∉ listingIds) && decide (listing.ageInDays ≤ maxAge)

/-- The entry `main` appends for an included listing (`fe.id(...)` through
`fe.content(...)`). -/
def listingToEntry (l : Listing) : FeedEntry :=
  { id := itemTag l.id
    title := l.title
    updated := l.startTime
    link := l.url
    content := some (describe l) }

/-- Model of `copy_entry`: the entry is appended unchanged; a missing
`updated` is replaced by `now()` (`nowT`). -/
def copy_entry (nowT : Int) (e : AtomEntry) : FeedEntry :=
  { id := e.id_
    title := e.title
    updated := e.updated.getD nowT
    link := e.link
    content := e.content }

/-- State of `main`'s consumption loop when it stops pulling listings:
`listingIds`/`entries`/`entryCount` are the final `listing_ids`, appended
entries, and `entry_count`; `taken` is the prefix of the listing stream the
loop consumed; `rest` the unconsumed remainder (nonempty only after a
`break`); `broke` records whether the loop left via the
`entry_count > MAX_FEED_ENTRIES` break. -/
structure NewPhase where
  listingIds : List String
  entries : List FeedEntry
  entryCount : Nat
  taken : List Listing
  rest : List Listing
  broke : Bool
deriving DecidableEq, Repr

/-- Model of `main`'s `for listing in get_listings(...)` loop body (lines
432-446): the inclusion test, `listing_ids.add`, the entry synthesis, the
count increment, and the break once the count exceeds the maximum. -/
def addNewListings (maxE : Nat) (maxAge : Int) :
    List Listing → List String → List FeedEntry → Nat → NewPhase
  | [], ids, es, c => ⟨ids, es, c, [], [], false⟩
  | l :: ls, ids, es, c =>
    if include_in_feed maxAge l ids then
      let ids' := l.id :: ids
      let es' := es ++ [listingToEntry l]
      let c' := c + 1
      if maxE < c' then ⟨ids', es', c', [l], ls, true⟩
      else
        let r := addNewListings maxE maxAge ls ids' es' c'
        { r with taken := l :: r.taken }
    else
      let r := addNewListings maxE maxAge ls ids es c
      { r with taken := l :: r.taken }

/-- The loop of `copy_remaining_entries` over `feed.entries`.  Note the
source never adds the copied entry's listing id to `listing_ids`. -/
def copyRemainingList (maxE : Nat) (nowT : Int) :
    List AtomEntry → Nat → List String → List FeedEntry
  | [], _, _ => []
  | e :: es, c, ids =>
    let lid := parse_listing_id e.id_
    if c < maxE then
      match lid with
      | some d =>
          if d ∉ ids then copy_entry nowT e :: copyRemainingList maxE nowT es (c + 1) ids
          else copyRemainingList maxE nowT es c ids
      | none => copyRemainingList maxE nowT es c ids
    else []

/-- Model of `copy_remaining_entries` (including the `feed is None` guard). -/
def copy_remaining_entries (maxE : Nat) (nowT : Int) (feed : Option (List AtomEntry))
    (entryCount : Nat) (listingIds : List String) : List FeedEntry :=
  match feed with
  | none => []
  | some es => copyRemainingList maxE nowT es entryCount listingIds

/-- The output feed `main` builds from a stream of discovered listings and the
previous feed: the new-listing entries followed by the carried-over ones. -/
def buildFeed (maxE : Nat) (maxAge : Int) (nowT : Int) (prev : Option (List AtomEntry))
    (newListings : List Listing) : List FeedEntry :=
  let r := addNewListings maxE maxAge newListings [] [] 0
  r.entries ++ copy_remaining_entries maxE nowT prev r.entryCount r.listingIds

/-- One element of the `search_urls` list: `(url, price_suggestions,
release_id)`. -/
structure SearchQuery where
  url : String
  priceSuggestions : List (String × Int)
  releaseId : Option Int
deriving DecidableEq, Repr

/-- How processing one query (the `get_results` pagination wrapped by
`item_to_listing`) ends, together with the listings yielded before that:
`ok` — pagination exhausted; `recoverableError` — a `BadSearchURLException`
or `APIException` (caught and logged by `get_listings`); `quotaExceeded` —
a `TooManyAPICallsException`. -/
inductive QueryResult where
  | ok (items : List Listing)
  | recoverableError (items : List Listing)
  | quotaExceeded (items : List Listing)
deriving DecidableEq, Repr

def QueryResult.isQuota : QueryResult → Bool
  | .quotaExceeded _ => true
  | .ok _ => false
  | .recoverableError _ => false

def QueryResult.items : QueryResult → List Listing
  | .ok its => its
  | .recoverableError its => its
  | .quotaExceeded its => its

/-- Result of a full (never-abandoned) run of the `get_listings` generator:
the yielded listings tagged with the url of the query that produced them, the
urls of the queries actually processed (i.e. whose pagination was started),
and the final state of the checkpoint file. -/
structure CrawlResult where
  items : List (Listing × String)
  processed : List String
  checkpoint : Option String
deriving DecidableEq, Repr

/-- `get_listings` from the point where `next_url` is `None` (the `Active`
state), starting at 1-based enumeration index `i`.  Reaching the end of the
list runs `clear_next_url()` (checkpoint becomes `none`); a
`TooManyAPICallsException` or a failed time-budget check ends the generator
with `save_next_url(last_url)` where `last_url` is the current query's url. -/
def crawlActive (env : String → QueryResult) (timeUp : Nat → Bool) :
    List SearchQuery → Nat → CrawlResult
  | [], _ => { items := [], processed := [], checkpoint := none }
  | q :: qs, i =>
    match env q.url with
    | .quotaExceeded its =>
        { items := its.map (fun l => (l, q.url)), processed := [q.url], checkpoint := some q.url }
    | .ok its =>
        if timeUp i then
          { items := its.map (fun l => (l, q.url)), processed := [q.url], checkpoint := some q.url }
        else
          let r := crawlActive env timeUp qs (i + 1)
          { items := its.map (fun l => (l, q.url)) ++ r.items
            processed := q.url :: r.processed
            checkpoint := r.checkpoint }
    | .recoverableError its =>
        if timeUp i then
          { items := its.map (fun l => (l, q.url)), processed := [q.url], checkpoint := some q.url }
        else
          let r := crawlActive env timeUp qs (i + 1)
          { items := its.map (fun l => (l, q.url)) ++ r.items
            processed := q.url :: r.processed
            checkpoint := r.checkpoint }

/-- `get_listings` while `next_url` is set (the `Skipping` state): each query
whose url differs from the checkpoint is skipped with `continue` (before the
`try` block and before the time check); on a match `next_url` is reset and the
query is processed as in the active state.  Exhausting the list while still
skipping runs `clear_next_url()`. -/
def crawlSkipping (env : String → QueryResult) (timeUp : Nat → Bool) (ck : String) :
    List SearchQuery → Nat → CrawlResult
  | [], _ => { items := [], processed := [], checkpoint := none }
  | q :: qs, i =>
    if q.url = ck then crawlActive env timeUp (q :: qs) i
    else crawlSkipping env timeUp ck qs (i + 1)

/-- Model of `get_listings`: dispatch on the loaded checkpoint
(`load_next_url()`). -/
def get_listings (env : String → QueryResult) (timeUp : Nat → Bool)
    (qs : List SearchQuery) (checkpoint0 : Option String) : CrawlResult :=
  match checkpoint0 with
  | none => crawlActive env timeUp qs 1
  | some ck => crawlSkipping env timeUp ck qs 1

/-- Result of one whole run of `main`: the entries written to the new feed
file, and the state of the checkpoint file afterwards. -/
structure RunResult where
  feed : List FeedEntry
  checkpoint : Option String
deriving DecidableEq, Repr

/-- Whether `main`'s consumption loop leaves via the feed-capacity break for
the given inputs. -/
def mainBroke (maxE : Nat) (maxAge : Int) (env : String → QueryResult) (timeUp : Nat → Bool)
    (qs : List SearchQuery) (checkpoint0 : Option String) : Bool :=
  (addNewListings maxE maxAge ((get_listings env timeUp qs checkpoint0).items.map Prod.fst)
    [] [] 0).broke

/-- Model of `main` (crawl, inclusion loop, merge, atomic write).  If the
consumption loop breaks, the generator is closed while suspended at the yield
of the last consumed listing, and its `finally` block persists the url of the
query that produced that listing; otherwise the generator ran to completion
and decided the checkpoint itself. -/
def mainRun (maxE : Nat) (maxAge : Int) (nowT : Int) (env : String → QueryResult)
    (timeUp : Nat → Bool) (qs : List SearchQuery) (checkpoint0 : Option String)
    (prev : Option (List AtomEntry)) : RunResult :=
  let crawl := get_listings env timeUp qs checkpoint0
  let phase := addNewListings maxE maxAge (crawl.items.map Prod.fst) [] [] 0
  { feed := phase.entries ++ copy_remaining_entries maxE nowT prev phase.entryCount phase.listingIds
    checkpoint :=
      if phase.broke then
        match crawl.items[phase.taken.length - 1]? with
        | some lu => some lu.2
        | none => crawl.checkpoint
      else crawl.checkpoint }

/-- Outcome of one HTTP attempt inside `call_api`'s retry loop. -/
inductive AttemptOutcome (α : Type) where
  | success (resp : α)
  | badStatus (quotaSig : Bool) (msg : String)
  | requestError (err : String)
deriving DecidableEq, Repr

/-- How `call_api` returns to its caller: a response, an `APIException`
(carrying the message text), or a `TooManyAPICallsException`. -/
inductive CallResult (α : Type) where
  | ok (resp : α)
  | apiError (msg : String)
  | tooManyCalls (msg : String)
deriving DecidableEq, Repr

/-- The `while True` retry loop of `call_api` over an oracle of attempt
outcomes, with `remaining` retries left (`remaining = 10 - tries`); the list
collects the `time.sleep(60)` pauses performed. -/
def callApiLoop {α : Type} (attempt : Nat → AttemptOutcome α) (k : Nat) (remaining : Nat) :
    CallResult α × List Nat :=
  match attempt k with
  | .success r => (.ok r, [])
  | .badStatus true m => (.tooManyCalls m, [])
  | .badStatus false m => (.apiError m, [])
  | .requestError e =>
      match remaining with
      | 0 => (.apiError ("API call failed (" ++ e ++ ")"), [])
      | r + 1 =>
          let p := callApiLoop attempt (k + 1) r
          (p.1, 60 :: p.2)
termination_by remaining

/-- Model of `call_api`: `tries` starts at 0 and the loop raises once
`tries > 10`, so the initial attempt is followed by at most 10 retries. -/
def call_api {α : Type} (attempt : Nat → AttemptOutcome α) : CallResult α × List Nat :=
  callApiLoop attempt 0 10

/-! ## Concrete sample inputs used by witnesses and counterexamples -/

/-- A minimal listing with a given id and age. -/
def sampleListing (i : String) (age : Int) : Listing :=
  { id := i, url := "http://x/" ++ i, title := "t" ++ i, startTime := 0, ageInDays := age,
    imageUrl := "im", price := 5, shippingPrice := none, country := "US", buyItNow := false,
    searchParams := [], priceSuggestions := [], releaseId := none }

/-- A previous-feed entry whose id is in the canonical tag form for digit
string `d`. -/
def sampleEntry (d : String) : AtomEntry :=
  { id_ := itemTag d, title := "o" ++ d, updated := some 0, link := "http://o/" ++ d,
    content := some "c" }

/-- A previous-feed entry whose id does not match the `tag_uri` regex. -/
def strayEntry : AtomEntry :=
  { id_ := "urn:other:thing", title := "stray", updated := none, link := "http://o/stray",
    content := none }

/-- A query with a given url and no attached metadata. -/
def sampleQuery (u : String) : SearchQuery := { url := u, priceSuggestions := [], releaseId := none }

/-- Environment where query `"b"` runs into the call quota and every other
query succeeds with one listing. -/
def envQuotaAtB : String → QueryResult := fun u =>
  if u = "b" then .quotaExceeded [sampleListing "3" 0] else .ok [sampleListing "1" 0]

/-- Environment where every query succeeds with one listing except `"u1"`,
which yields two. -/
def envTwoAtU1 : String → QueryResult := fun u =>
  if u = "u1" then .ok [sampleListing "1" 0, sampleListing "2" 0] else .ok []

/-- Environment where query `"r"` fails recoverably after one listing and
every other query succeeds with one listing. -/
def envRecovAtR : String → QueryResult := fun u =>
  if u = "r" then .recoverableError [sampleListing "8" 0] else .ok [sampleListing "9" 0]

/-- No wall-clock budget (`minutes is None`). -/
def timeNever : Nat → Bool := fun _ => false

/-- A three-query list used by several witnesses. -/
def qsABC : List SearchQuery := [sampleQuery "a", sampleQuery "b", sampleQuery "c"]

/-- An attempt oracle for `call_api` where every attempt fails with a
distinct transient network error. -/
def attemptAllFail : Nat → AttemptOutcome Nat := fun i => .requestError ("err" ++ toString i)

/-! ## Helper lemmas: strings and the tag-uri pattern -/

theorem string_eq_of_data {a b : String} (h : a.data = b.data) : a = b := by
  cases a; cases b; exact congrArg String.mk h

theorem itemTag_inj {a b : String} (h : itemTag a = itemTag b) : a = b := by
  have hd : (tagLit ++ a).data = (tagLit ++ b).data := congrArg String.data h
  rw [String.data_append, String.data_append] at hd
  exact string_eq_of_data (List.append_cancel_left hd)

theorem matchPat_self (pat rest : List Char) : matchPat pat (pat ++ rest) = some rest := by
  induction pat with
  | nil => rfl
  | cons p ps ih => simp [matchPat, patCharMatches, ih]

/-- A canonical minted id round-trips through `parse_listing_id`. -/
theorem parse_itemTag {d : String} (hne : d ≠ "") (hdig : d.data.all Char.isDigit = true) :
    parse_listing_id (itemTag d) = some d := by
  have hdata : (itemTag d).data = tagLit.data ++ d.data := by
    rw [itemTag, String.data_append]
  have htw : d.data.takeWhile Char.isDigit = d.data :=
    List.takeWhile_eq_self_iff.mpr (by simpa [List.all_eq_true] using hdig)
  have hne' : d.data ≠ [] := by
    intro h
    exact hne (by cases d with | mk l => simpa using congrArg String.mk h)
  unfold parse_listing_id
  rw [hdata, matchPat_self]
  simp only [htw]
  rw [if_neg (by simpa [List.isEmpty_iff] using hne')]

/-! ## Helper lemmas: the crawl state machine -/

/-- If every query before position `k` neither hits the quota nor exhausts
the time budget, and the query at `k` hits the quota, the active crawl halts
at `k`: the checkpoint is query `k`'s url and exactly queries `0..k` were
processed. -/
theorem crawlActive_quota_halts (env : String → QueryResult) (timeUp : Nat → Bool) :
    ∀ (qs : List SearchQuery) (i k : Nat) (hk : k < qs.length),
      (env (qs.get ⟨k, hk⟩).url).isQuota = true →
      (∀ j (hj : j < k), (env (qs.get ⟨j, Nat.lt_trans hj hk⟩).url).isQuota = false
        ∧ timeUp (i + j) = false) →
      (crawlActive env timeUp qs i).checkpoint = some (qs.get ⟨k, hk⟩).url
        ∧ (crawlActive env timeUp qs i).processed = (qs.take (k + 1)).map SearchQuery.url := by
  intro qs
  induction qs with
  | nil => intro i k hk; exact absurd hk (by simp)
  | cons q qs ih =>
    intro i k hk hq hpre
    match k with
    | 0 =>
      simp only [List.get] at hq
      cases hres : env q.url with
      | quotaExceeded its => simp [crawlActive, hres, List.get]
      | ok its => rw [hres] at hq; simp [QueryResult.isQuota] at hq
      | recoverableError its => rw [hres] at hq; simp [QueryResult.isQuota] at hq
    | k + 1 =>
      obtain ⟨h0, ht0⟩ := hpre 0 (Nat.succ_pos k)
      simp only [List.get] at h0
      have ht : timeUp i = false := by simpa using ht0
      have hk' : k < qs.length := Nat.lt_of_succ_lt_succ hk
      have hq' : (env (qs.get ⟨k, hk'⟩).url).isQuota = true := by
        simpa [List.get] using hq
      have hpre' : ∀ j (hj : j < k),
          (env (qs.get ⟨j, Nat.lt_trans hj hk'⟩).url).isQuota = false
            ∧ timeUp ((i + 1) + j) = false := by
        intro j hj
        have := hpre (j + 1) (Nat.succ_lt_succ hj)
        constructor
        · simpa [List.get] using this.1
        · have h2 := this.2
          have : i + (j + 1) = (i + 1) + j := by omega
          rwa [this] at h2
      have hrec := ih (i + 1) k hk' hq' hpre'
      cases hres : env q.url with
      | quotaExceeded its => rw [hres] at h0; simp [QueryResult.isQuota] at h0
      | ok its =>
        refine ⟨?_, ?_⟩ <;>
          simp [crawlActive, hres, ht, hrec.1, hrec.2, List.get]
      | recoverableError its =>
        refine ⟨?_, ?_⟩ <;>
          simp [crawlActive, hres, ht, hrec.1, hrec.2, List.get]

/-- A skipping crawl whose checkpoint first matches at position `k` behaves
exactly like an active crawl started at the suffix from `k` (with the
enumeration index advanced accordingly). -/
theorem crawlSkipping_match (env : String → QueryResult) (timeUp : Nat → Bool) (ck : String) :
    ∀ (qs : List SearchQuery) (i k : Nat) (hk : k < qs.length),
      (qs.get ⟨k, hk⟩).url = ck →
      (∀ j (hj : j < k), (qs.get ⟨j, Nat.lt_trans hj hk⟩).url ≠ ck) →
      crawlSkipping env timeUp ck qs i = crawlActive env timeUp (qs.drop k) (i + k) := by
  intro qs
  induction qs with
  | nil => intro i k hk; exact absurd hk (by simp)
  | cons q qs ih =>
    intro i k hk hmatch hbefore
    match k with
    | 0 =>
      simp only [List.get] at hmatch
      simp [crawlSkipping, hmatch]
    | k + 1 =>
      have h0 : q.url ≠ ck := by
        have := hbefore 0 (Nat.succ_pos k)
        simpa [List.get] using this
      have hk' : k < qs.length := Nat.lt_of_succ_lt_succ hk
      have hmatch' : (qs.get ⟨k, hk'⟩).url = ck := by simpa [List.get] using hmatch
      have hbefore' : ∀ j (hj : j < k), (qs.get ⟨j, Nat.lt_trans hj hk'⟩).url ≠ ck := by
        intro j hj
        have := hbefore (j + 1) (Nat.succ_lt_succ hj)
        simpa [List.get] using this
      have hrec := ih (i + 1) k hk' hmatch' hbefore'
      have harith : (i + 1) + k = i + (k + 1) := by omega
      rw [List.drop_succ_cons]
      rw [show crawlSkipping env timeUp ck (q :: qs) i
            = crawlSkipping env timeUp ck qs (i + 1) from by simp [crawlSkipping, h0]]
      rw [hrec, harith]

/-- Every processed url belongs to the query list. -/
theorem crawlActive_processed_subset (env : String → QueryResult) (timeUp : Nat → Bool) :
    ∀ (qs : List SearchQuery) (i : Nat),
      ∀ u ∈ (crawlActive env timeUp qs i).processed, u ∈ qs.map SearchQuery.url := by
  intro qs
  induction qs with
  | nil => intro i u hu; simp [crawlActive] at hu
  | cons q qs ih =>
    intro i u hu
    cases hres : env q.url with
    | quotaExceeded its =>
      rw [crawlActive, hres] at hu
      simp at hu
      simp [hu]
    | ok its =>
      rw [crawlActive, hres] at hu
      by_cases ht : timeUp i <;> simp [ht] at hu
      · simp [hu]
      · rcases hu with hu | hu
        · simp [hu]
        · exact List.mem_cons_of_mem _ (ih (i + 1) u hu)
    | recoverableError its =>
      rw [crawlActive, hres] at hu
      by_cases ht : timeUp i <;> simp [ht] at hu
      · simp [hu]
      · rcases hu with hu | hu
        · simp [hu]
        · exact List.mem_cons_of_mem _ (ih (i + 1) u hu)

/-- If no query outcome is the quota error and the time budget never
expires, the active crawl completes and clears the checkpoint. -/
theorem crawlActive_no_halt (env : String → QueryResult) (timeUp : Nat → Bool)
    (hq : ∀ u, (env u).isQuota = false) (ht : ∀ j, timeUp j = false) :
    ∀ (qs : List SearchQuery) (i : Nat), (crawlActive env timeUp qs i).checkpoint = none := by
  intro qs
  induction qs with
  | nil => intro i; rfl
  | cons q qs ih =>
    intro i
    cases hres : env q.url with
    | quotaExceeded its =>
      have := hq q.url
      rw [hres] at this
      simp [QueryResult.isQuota] at this
    | ok its => rw [crawlActive, hres]; simp [ht i, ih (i + 1)]
    | recoverableError its => rw [crawlActive, hres]; simp [ht i, ih (i + 1)]

/-- Same for a crawl that starts in the skipping state. -/
theorem crawlSkipping_no_halt (env : String → QueryResult) (timeUp : Nat → Bool) (ck : String)
    (hq : ∀ u, (env u).isQuota = false) (ht : ∀ j, timeUp j = false) :
    ∀ (qs : List SearchQuery) (i : Nat), (crawlSkipping env timeUp ck qs i).checkpoint = none := by
  intro qs
  induction qs with
  | nil => intro i; rfl
  | cons q qs ih =>
    intro i
    rw [crawlSkipping]
    by_cases hmatch : q.url = ck
    · simp [hmatch, crawlActive_no_halt env timeUp hq ht]
    · simp [hmatch, ih (i + 1)]

/-- A checkpoint that matches no query url makes the skipping crawl skip
everything: no items, no processed queries, checkpoint cleared. -/
theorem crawlSkipping_unmatched (env : String → QueryResult) (timeUp : Nat → Bool) (ck : String) :
    ∀ (qs : List SearchQuery) (i : Nat), (∀ q ∈ qs, q.url ≠ ck) →
      crawlSkipping env timeUp ck qs i = { items := [], processed := [], checkpoint := none } := by
  intro qs
  induction qs with
  | nil => intro i _; rfl
  | cons q qs ih =>
    intro i hall
    rw [crawlSkipping]
    rw [if_neg (hall q (List.mem_cons_self q qs))]
    exact ih (i + 1) (fun p hp => hall p (List.mem_cons_of_mem q hp))

/-! ## Helper lemmas: the inclusion loop of `main` -/

/-- The consumed prefix and the unconsumed remainder partition the listing
stream. -/
theorem addNew_taken_append (maxE : Nat) (maxAge : Int) :
    ∀ (ls : List Listing) (ids : List String) (es : List FeedEntry) (c : Nat),
      ls = (addNewListings maxE maxAge ls ids es c).taken
        ++ (addNewListings maxE maxAge ls ids es c).rest := by
  intro ls
  induction ls with
  | nil => intro ids es c; rfl
  | cons l ls ih =>
    intro ids es c
    rw [addNewListings]
    by_cases hinc : include_in_feed maxAge l ids
    · rw [if_pos hinc]
      by_cases hbr : maxE < c + 1
      · rw [if_pos hbr]; rfl
      · rw [if_neg hbr]
        simpa using ih (l.id :: ids) (es ++ [listingToEntry l]) (c + 1)
    · rw [if_neg hinc]
      simpa using ih ids es c

/-- The entries produced by the loop extend the initial ones; the count grows
by the number of new entries; and every new entry comes from a consumed
listing that passed the age bound. -/
theorem addNew_entries (maxE : Nat) (maxAge : Int) :
    ∀ (ls : List Listing) (ids : List String) (es : List FeedEntry) (c : Nat),
      ∃ ns, (addNewListings maxE maxAge ls ids es c).entries = es ++ ns
        ∧ (addNewListings maxE maxAge ls ids es c).entryCount = c + ns.length
        ∧ ∀ e ∈ ns, ∃ l, l ∈ (addNewListings maxE maxAge ls ids es c).taken
            ∧ e = listingToEntry l ∧ l.ageInDays ≤ maxAge := by
  intro ls
  induction ls with
  | nil => intro ids es c; exact ⟨[], by simp [addNewListings]⟩
  | cons l ls ih =>
    intro ids es c
    rw [addNewListings]
    by_cases hinc : include_in_feed maxAge l ids
    · have hage : l.ageInDays ≤ maxAge := by
        have := hinc
        simp only [include_in_feed, Bool.and_eq_true, decide_eq_true_eq] at this
        exact this.2
      rw [if_pos hinc]
      by_cases hbr : maxE < c + 1
      · rw [if_pos hbr]
        refine ⟨[listingToEntry l], by simp, by simp, ?_⟩
        intro e he
        simp at he
        exact ⟨l, by simp, he, hage⟩
      · rw [if_neg hbr]
        obtain ⟨ns, hes, hc, hmem⟩ := ih (l.id :: ids) (es ++ [listingToEntry l]) (c + 1)
        refine ⟨listingToEntry l :: ns, ?_, ?_, ?_⟩
        · simpa [List.append_assoc] using hes
        · simp only [hc, List.length_cons]; omega
        · intro e he
          rcases List.mem_cons.mp he with he | he
          · exact ⟨l, by simp, he, hage⟩
          · obtain ⟨l', hl', he', hage'⟩ := hmem e he
            exact ⟨l', by simp [hl'], he', hage'⟩
    · rw [if_neg hinc]
      obtain ⟨ns, hes, hc, hmem⟩ := ih ids es c
      refine ⟨ns, by simpa using hes, by simpa using hc, ?_⟩
      intro e he
      obtain ⟨l', hl', he', hage'⟩ := hmem e he
      exact ⟨l', by simp [hl'], he', hage'⟩

/-- The set of seen listing ids only grows. -/
theorem addNew_ids_mono (maxE : Nat) (maxAge : Int) :
    ∀ (ls : List Listing) (ids : List String) (es : List FeedEntry) (c : Nat),
      ids ⊆ (addNewListings maxE maxAge ls ids es c).listingIds := by
  intro ls
  induction ls with
  | nil => intro ids es c; exact fun s hs => hs
  | cons l ls ih =>
    intro ids es c
    rw [addNewListings]
    by_cases hinc : include_in_feed maxAge l ids
    · rw [if_pos hinc]
      by_cases hbr : maxE < c + 1
      · rw [if_pos hbr]
        exact fun s hs => List.mem_cons_of_mem _ hs
      · rw [if_neg hbr]
        intro s hs
        exact ih (l.id :: ids) (es ++ [listingToEntry l]) (c + 1) (List.mem_cons_of_mem _ hs)
    · rw [if_neg hinc]
      exact fun s hs => ih ids es c hs

/-- The loop stops as soon as the count exceeds the maximum, so the final
count never exceeds `maxE + 1`. -/
theorem addNew_count_le (maxE : Nat) (maxAge : Int) :
    ∀ (ls : List Listing) (ids : List String) (es : List FeedEntry) (c : Nat), c ≤ maxE →
      (addNewListings maxE maxAge ls ids es c).entryCount ≤ maxE + 1 := by
  intro ls
  induction ls with
  | nil => intro ids es c hc; simpa [addNewListings] using Nat.le_succ_of_le hc
  | cons l ls ih =>
    intro ids es c hc
    rw [addNewListings]
    by_cases hinc : include_in_feed maxAge l ids
    · rw [if_pos hinc]
      by_cases hbr : maxE < c + 1
      · rw [if_pos hbr]
        simpa using Nat.succ_le_succ hc
      · rw [if_neg hbr]
        simpa using ih (l.id :: ids) (es ++ [listingToEntry l]) (c + 1) (Nat.le_of_not_lt hbr)
    · rw [if_neg hinc]
      simpa using ih ids es c hc

/-- Invariant tying `listing_ids` to the entries already appended: an id is
recorded exactly when an entry minted from it exists, and no two appended
entries share an id. -/
def IdsInv (ids : List String) (es : List FeedEntry) : Prop :=
  (∀ s, s ∈ ids ↔ ∃ e ∈ es, e.id = itemTag s) ∧ (es.map FeedEntry.id).Nodup

theorem IdsInv_step {ids : List String} {es : List FeedEntry} {maxAge : Int} {l : Listing}
    (hInv : IdsInv ids es) (hinc : include_in_feed maxAge l ids = true) :
    IdsInv (l.id :: ids) (es ++ [listingToEntry l]) := by
  obtain ⟨hiff, hnd⟩ := hInv
  have hnotin : l.id ∉ ids := by
    simp only [include_in_feed, Bool.and_eq_true, decide_eq_true_eq] at hinc
    exact hinc.1
  constructor
  · intro s
    constructor
    · intro hs
      rcases List.mem_cons.mp hs with hs | hs
      · exact ⟨listingToEntry l, by simp, by simp [listingToEntry, hs]⟩
      · obtain ⟨e, he, heq⟩ := (hiff s).mp hs
        exact ⟨e, by simp [he], heq⟩
    · rintro ⟨e, he, heq⟩
      rcases List.mem_append.mp he with he | he
      · exact List.mem_cons_of_mem _ ((hiff s).mpr ⟨e, he, heq⟩)
      · have heq' : e = listingToEntry l := by simpa using he
        subst heq'
        have hs : l.id = s := itemTag_inj heq
        simp [← hs]
  · rw [List.map_append]
    rw [List.nodup_append]
    refine ⟨hnd, by simp, ?_⟩
    intro x hx hx'
    have hxeq : x = itemTag l.id := by simpa [listingToEntry] using hx'
    subst hxeq
    obtain ⟨e, he, heq⟩ := List.mem_map.mp hx
    exact hnotin ((hiff l.id).mpr ⟨e, he, heq⟩)

/-- Main invariant of the inclusion loop: the id/entry correspondence and
entry-id distinctness are preserved, and an entry minted from id `s` exists
afterwards exactly when one existed before or some consumed listing had id
`s` and passed the age bound. -/
theorem addNew_inv (maxE : Nat) (maxAge : Int) :
    ∀ (ls : List Listing) (ids : List String) (es : List FeedEntry) (c : Nat),
      IdsInv ids es →
      IdsInv (addNewListings maxE maxAge ls ids es c).listingIds
          (addNewListings maxE maxAge ls ids es c).entries
        ∧ ∀ s, (∃ e ∈ (addNewListings maxE maxAge ls ids es c).entries, e.id = itemTag s)
            ↔ ((∃ e ∈ es, e.id = itemTag s)
                ∨ ∃ l ∈ (addNewListings maxE maxAge ls ids es c).taken,
                    l.id = s ∧ l.ageInDays ≤ maxAge) := by
  intro ls
  induction ls with
  | nil =>
    intro ids es c hInv
    refine ⟨hInv, fun s => ?_⟩
    simp [addNewListings]
  | cons l ls ih =>
    intro ids es c hInv
    rw [addNewListings]
    by_cases hinc : include_in_feed maxAge l ids
    · have hage : l.ageInDays ≤ maxAge := by
        simp only [include_in_feed, Bool.and_eq_true, decide_eq_true_eq] at hinc
        exact hinc.2
      have hInv' := IdsInv_step hInv hinc
      rw [if_pos hinc]
      by_cases hbr : maxE < c + 1
      · rw [if_pos hbr]
        refine ⟨hInv', fun s => ?_⟩
        constructor
        · rintro ⟨e, he, heq⟩
          rcases List.mem_append.mp he with he | he
          · exact Or.inl ⟨e, he, heq⟩
          · have heq' : e = listingToEntry l := by simpa using he
            subst heq'
            exact Or.inr ⟨l, by simp, itemTag_inj heq, hage⟩
        · rintro (⟨e, he, heq⟩ | ⟨l', hl', hs, _⟩)
          · exact ⟨e, by simp [he], heq⟩
          · have hll : l' = l := by simpa using hl'
            exact ⟨listingToEntry l, by simp, by simp [listingToEntry, ← hll, hs]⟩
      · rw [if_neg hbr]
        obtain ⟨hrecInv, hreciff⟩ := ih (l.id :: ids) (es ++ [listingToEntry l]) (c + 1) hInv'
        refine ⟨hrecInv, fun s => ?_⟩
        rw [hreciff s]
        constructor
        · rintro (⟨e, he, heq⟩ | ⟨l', hl', hs, hage'⟩)
          · rcases List.mem_append.mp he with he | he
            · exact Or.inl ⟨e, he, heq⟩
            · have heq' : e = listingToEntry l := by simpa using he
              subst heq'
              exact Or.inr ⟨l, by simp, itemTag_inj heq, hage⟩
          · exact Or.inr ⟨l', by simp [hl'], hs, hage'⟩
        · rintro (⟨e, he, heq⟩ | ⟨l', hl', hs, hage'⟩)
          · exact Or.inl ⟨e, by simp [he], heq⟩
          · rcases List.mem_cons.mp (by simpa using hl') with hl'' | hl''
            · subst hl''
              exact Or.inl ⟨listingToEntry l', by simp, by simp [listingToEntry, hs]⟩
            · exact Or.inr ⟨l', hl'', hs, hage'⟩
    · rw [if_neg hinc]
      obtain ⟨hrecInv, hreciff⟩ := ih ids es c hInv
      refine ⟨hrecInv, fun s => ?_⟩
      rw [hreciff s]
      constructor
      · rintro (h | ⟨l', hl', hs, hage'⟩)
        · exact Or.inl h
        · exact Or.inr ⟨l', by simp [hl'], hs, hage'⟩
      · rintro (h | ⟨l', hl', hs, hage'⟩)
        · exact Or.inl h
        · rcases List.mem_cons.mp (by simpa using hl') with hl'' | hl''
          · have hincl' : ¬ include_in_feed maxAge l' ids = true := by rwa [hl'']
            have hmem : l'.id ∈ ids := by
              by_contra hno
              exact hincl' (by simp [include_in_feed, hno, hage'])
            obtain ⟨e, he, heq⟩ := (hInv.1 l'.id).mp hmem
            exact Or.inl ⟨e, he, by rw [heq, hs]⟩
          · exact Or.inr ⟨l', hl'', hs, hage'⟩

/-! ## Helper lemmas: the carry-over loop -/

/-- Facts about `copy_remaining_entries`' loop: the copied ids form a
sublist of the previous feed's ids (in stored order); every copied entry is
an unchanged copy of a previous entry whose id parses to a listing id not in
`listing_ids`; and at most `maxE - c` entries are copied. -/
theorem copyList_facts (maxE : Nat) (nowT : Int) :
    ∀ (rem : List AtomEntry) (c : Nat) (ids : List String),
      ((copyRemainingList maxE nowT rem c ids).map FeedEntry.id).Sublist
          (rem.map AtomEntry.id_)
        ∧ (∀ x ∈ copyRemainingList maxE nowT rem c ids,
            ∃ e ∈ rem, x = copy_entry nowT e
              ∧ ∃ d, parse_listing_id e.id_ = some d ∧ d ∉ ids)
        ∧ (copyRemainingList maxE nowT rem c ids).length ≤ maxE - c := by
  intro rem
  induction rem with
  | nil =>
    intro c ids
    exact ⟨by simp [copyRemainingList], by simp [copyRemainingList], by simp [copyRemainingList]⟩
  | cons e es ih =>
    intro c ids
    simp only [copyRemainingList]
    by_cases hc : c < maxE
    · rw [if_pos hc]
      cases hp : parse_listing_id e.id_ with
      | none =>
        obtain ⟨h1, h2, h3⟩ := ih c ids
        refine ⟨h1.cons _, ?_, le_trans h3 (by omega)⟩
        intro x hx
        obtain ⟨e', he', hx', hd⟩ := h2 x hx
        exact ⟨e', by simp [he'], hx', hd⟩
      | some d =>
        simp only []
        by_cases hd : d ∉ ids
        · rw [if_pos hd]
          obtain ⟨h1, h2, h3⟩ := ih (c + 1) ids
          refine ⟨?_, ?_, ?_⟩
          · exact h1.cons₂ _
          · intro x hx
            rcases List.mem_cons.mp hx with hx | hx
            · exact ⟨e, by simp, hx, d, hp, hd⟩
            · obtain ⟨e', he', hx', hd'⟩ := h2 x hx
              exact ⟨e', by simp [he'], hx', hd'⟩
          · simp only [List.length_cons]
            omega
        · rw [if_neg hd]
          obtain ⟨h1, h2, h3⟩ := ih c ids
          refine ⟨h1.cons _, ?_, le_trans h3 (by omega)⟩
          intro x hx
          obtain ⟨e', he', hx', hd'⟩ := h2 x hx
          exact ⟨e', by simp [he'], hx', hd'⟩
    · rw [if_neg hc]
      exact ⟨by simp, by simp, by simp⟩

/-! ## Claim theorems -/

/-- C1: if a `TooManyAPICallsException` is raised while processing query `k`
(all earlier queries neither hit the quota nor exhaust the time budget), the
run halts — only queries up to and including `k` are processed — and the
persisted checkpoint is query `k`'s specification string, not query
`k+1`'s. -/
theorem C1_quota_checkpoints_current_query
    (env : String → QueryResult) (timeUp : Nat → Bool) (qs : List SearchQuery) (k : Nat)
    (hk : k < qs.length)
    (hq : (env (qs.get ⟨k, hk⟩).url).isQuota = true)
    (hpre : ∀ j (hj : j < k), (env (qs.get ⟨j, Nat.lt_trans hj hk⟩).url).isQuota = false
      ∧ timeUp (j + 1) = false) :
    (get_listings env timeUp qs none).checkpoint = some (qs.get ⟨k, hk⟩).url
      ∧ (get_listings env timeUp qs none).processed = (qs.take (k + 1)).map SearchQuery.url := by
  have hpre' : ∀ j (hj : j < k), (env (qs.get ⟨j, Nat.lt_trans hj hk⟩).url).isQuota = false
      ∧ timeUp (1 + j) = false := by
    intro j hj
    refine ⟨(hpre j hj).1, ?_⟩
    have h2 := (hpre j hj).2
    rwa [Nat.add_comm] at h2
  exact crawlActive_quota_halts env timeUp qs 1 k hk hq hpre'

/-- Witness for C1 at a concrete input: quota raised at query 2 of 3. -/
theorem C1_witness :
    (get_listings envQuotaAtB timeNever qsABC none).checkpoint = some "b"
      ∧ (get_listings envQuotaAtB timeNever qsABC none).processed = ["a", "b"] :=
  C1_quota_checkpoints_current_query envQuotaAtB timeNever qsABC 1 (by decide) (by decide)
    (by
      intro j hj
      have hj0 : j = 0 := by omega
      subst hj0
      exact ⟨(by decide : (envQuotaAtB (qsABC.get ⟨0, Nat.succ_pos 2⟩).url).isQuota = false), rfl⟩)

/-- C2: resuming with a checkpoint equal to query `k`'s specification skips
queries before `k` entirely and behaves exactly like a fresh active crawl of
the suffix starting at query `k` (query `k` is reprocessed from its first
page, then the crawl continues with the following queries); moreover every
processed url belongs to that suffix, so the skipped queries trigger no API
call. -/
theorem C2_resume_skips_then_reprocesses
    (env : String → QueryResult) (timeUp : Nat → Bool) (qs : List SearchQuery) (k : Nat)
    (hk : k < qs.length) (ck : String)
    (hmatch : (qs.get ⟨k, hk⟩).url = ck)
    (hbefore : ∀ j (hj : j < k), (qs.get ⟨j, Nat.lt_trans hj hk⟩).url ≠ ck) :
    get_listings env timeUp qs (some ck) = crawlActive env timeUp (qs.drop k) (k + 1)
      ∧ ∀ u ∈ (get_listings env timeUp qs (some ck)).processed,
          u ∈ (qs.drop k).map SearchQuery.url := by
  have h := crawlSkipping_match env timeUp ck qs 1 k hk hmatch hbefore
  have h1 : get_listings env timeUp qs (some ck) = crawlActive env timeUp (qs.drop k) (k + 1) := by
    show crawlSkipping env timeUp ck qs 1 = _
    rw [h, Nat.add_comm]
  refine ⟨h1, ?_⟩
  intro u hu
  rw [h1] at hu
  exact crawlActive_processed_subset env timeUp (qs.drop k) (k + 1) u hu

/-- Witness for C2 at a concrete input: checkpoint at query 2 of 3. -/
theorem C2_witness :
    get_listings envQuotaAtB timeNever qsABC (some "b")
        = crawlActive envQuotaAtB timeNever (qsABC.drop 1) 2
      ∧ ∀ u ∈ (get_listings envQuotaAtB timeNever qsABC (some "b")).processed,
          u ∈ (qsABC.drop 1).map SearchQuery.url :=
  C2_resume_skips_then_reprocesses envQuotaAtB timeNever qsABC 1 (by decide) "b" rfl
    (by
      intro j hj
      have hj0 : j = 0 := by omega
      subst hj0
      exact (by decide : (qsABC.get ⟨0, Nat.succ_pos 2⟩).url ≠ "b"))

/-- C5 counterexample: with a checkpoint matching no query url the run
produces no items at all — every query is skipped with `continue` — whereas
the same run without a checkpoint processes the list and yields items.  The
claim that the queries are processed as if no checkpoint existed is false. -/
theorem C5_unmatched_checkpoint_counterexample :
    (get_listings envTwoAtU1 timeNever [sampleQuery "u1"] (some "zzz")).items = []
      ∧ (get_listings envTwoAtU1 timeNever [sampleQuery "u1"] none).items
          = [(sampleListing "1" 0, "u1"), (sampleListing "2" 0, "u1")] := by
  exact ⟨by decide, by decide⟩

/-- C5 amended: if the checkpoint matches no query's specification, the whole
list is skipped — the run yields no items and performs no API call — and the
checkpoint is cleared when the loop completes, so only the NEXT run behaves
as if no checkpoint existed. -/
theorem C5_unmatched_checkpoint_amended
    (env : String → QueryResult) (timeUp : Nat → Bool) (qs : List SearchQuery) (ck : String)
    (h : ∀ q ∈ qs, q.url ≠ ck) :
    get_listings env timeUp qs (some ck)
      = { items := [], processed := [], checkpoint := none } :=
  crawlSkipping_unmatched env timeUp ck qs 1 h

/-- Witness for the amended C5 at a concrete input. -/
theorem C5_amended_witness :
    get_listings envTwoAtU1 timeNever [sampleQuery "u1"] (some "zzz")
      = { items := [], processed := [], checkpoint := none } :=
  C5_unmatched_checkpoint_amended envTwoAtU1 timeNever [sampleQuery "u1"] "zzz" (by decide)

/-- C3 counterexample: with maximum feed size 1 and two includable listings
the output feed has 2 entries — the cap is enforced as "stop after
exceeding", so the feed can exceed the configured maximum by one. -/
theorem C3_cap_counterexample :
    ¬ (buildFeed 1 84 0 none [sampleListing "1" 0, sampleListing "2" 0]).length ≤ 1 := by
  decide

/-- C3 amended: for every run the output feed contains at most
`MAX_FEED_ENTRIES + 1` entries (the entry whose inclusion first exceeds the
cap is still appended before the loop breaks; the carry-over loop then adds
nothing once the count is at or above the cap). -/
theorem C3_cap_amended (maxE : Nat) (maxAge : Int) (nowT : Int)
    (prev : Option (List AtomEntry)) (ls : List Listing) :
    (buildFeed maxE maxAge nowT prev ls).length ≤ maxE + 1 := by
  unfold buildFeed
  obtain ⟨ns, hes, hc, _⟩ := addNew_entries maxE maxAge ls [] [] 0
  have hcount := addNew_count_le maxE maxAge ls [] [] 0 (Nat.zero_le _)
  have hlen : (addNewListings maxE maxAge ls [] [] 0).entries.length
      = (addNewListings maxE maxAge ls [] [] 0).entryCount := by
    rw [hes, hc]; simp
  rw [List.length_append]
  cases prev with
  | none => simp only [copy_remaining_entries, List.length_nil]; omega
  | some pes =>
    have hcopy := (copyList_facts maxE nowT pes
      (addNewListings maxE maxAge ls [] [] 0).entryCount
      (addNewListings maxE maxAge ls [] [] 0).listingIds).2.2
    simp only [copy_remaining_entries]
    omega

/-- C4: the listing stream splits into the consumed prefix and the
unconsumed remainder; every emitted entry is minted from a consumed listing
within the age bound (so a listing older than the maximum never appears in
the feed); no listing id is emitted twice; and an entry minted from id `s`
exists iff some consumed listing had id `s` and passed the age bound — i.e.
a discovered listing is included exactly when its id was not already emitted
and its age is within the bound. -/
theorem C4_inclusion_characterization (maxE : Nat) (maxAge : Int) (ls : List Listing) :
    ls = (addNewListings maxE maxAge ls [] [] 0).taken
        ++ (addNewListings maxE maxAge ls [] [] 0).rest
      ∧ (∀ e ∈ (addNewListings maxE maxAge ls [] [] 0).entries,
          ∃ l, l ∈ (addNewListings maxE maxAge ls [] [] 0).taken
            ∧ e = listingToEntry l ∧ l.ageInDays ≤ maxAge)
      ∧ ((addNewListings maxE maxAge ls [] [] 0).entries.map FeedEntry.id).Nodup
      ∧ ∀ s, (∃ e ∈ (addNewListings maxE maxAge ls [] [] 0).entries, e.id = itemTag s)
          ↔ ∃ l, l ∈ (addNewListings maxE maxAge ls [] [] 0).taken
              ∧ l.id = s ∧ l.ageInDays ≤ maxAge := by
  have hInv0 : IdsInv [] [] := ⟨by simp, by simp⟩
  obtain ⟨⟨_, hnd⟩, hiff⟩ := addNew_inv maxE maxAge ls [] [] 0 hInv0
  obtain ⟨ns, hes, _, hmem⟩ := addNew_entries maxE maxAge ls [] [] 0
  refine ⟨addNew_taken_append maxE maxAge ls [] [] 0, ?_, hnd, ?_⟩
  · intro e he
    rw [hes] at he
    exact hmem e (by simpa using he)
  · intro s
    rw [hiff s]
    simp

/-- Witness for C4 at a concrete input. -/
theorem C4_witness :
    [sampleListing "5" 0] = (addNewListings 4 84 [sampleListing "5" 0] [] [] 0).taken
        ++ (addNewListings 4 84 [sampleListing "5" 0] [] [] 0).rest
      ∧ (∀ e ∈ (addNewListings 4 84 [sampleListing "5" 0] [] [] 0).entries,
          ∃ l, l ∈ (addNewListings 4 84 [sampleListing "5" 0] [] [] 0).taken
            ∧ e = listingToEntry l ∧ l.ageInDays ≤ 84)
      ∧ ((addNewListings 4 84 [sampleListing "5" 0] [] [] 0).entries.map FeedEntry.id).Nodup
      ∧ ∀ s, (∃ e ∈ (addNewListings 4 84 [sampleListing "5" 0] [] [] 0).entries, e.id = itemTag s)
          ↔ ∃ l, l ∈ (addNewListings 4 84 [sampleListing "5" 0] [] [] 0).taken
              ∧ l.id = s ∧ l.ageInDays ≤ 84 :=
  C4_inclusion_characterization 4 84 [sampleListing "5" 0]

/-- C6 counterexample: a previous feed containing two entries with the same
identifier yields an output feed with two entries sharing that identifier —
the carry-over loop never records the ids it has already copied. -/
theorem C6_duplicate_ids_counterexample :
    ¬ ((buildFeed 4 84 0 (some [sampleEntry "7", sampleEntry "7"]) []).map
        FeedEntry.id).Nodup := by
  decide

/-- C6 amended: the entries minted for new listings never share an
identifier; and provided the previous feed's entry identifiers are pairwise
distinct and each is in canonical minted form (the tag literal followed by
digits only), no two entries of the output feed share an identifier.
Without those provisos duplicates are possible, because the carry-over loop
deduplicates only against the new-run ids via the parsed digit run, not
against previously copied entries. -/
theorem C6_nodup_amended (maxE : Nat) (maxAge : Int) (nowT : Int)
    (prevEntries : List AtomEntry) (ls : List Listing)
    (hshape : ∀ e ∈ prevEntries, ∃ d : String, d ≠ ""
        ∧ d.data.all Char.isDigit = true ∧ e.id_ = itemTag d)
    (hnodup : (prevEntries.map AtomEntry.id_).Nodup) :
    ((buildFeed maxE maxAge nowT (some prevEntries) ls).map FeedEntry.id).Nodup := by
  obtain ⟨⟨hids, hnd⟩, _⟩ := addNew_inv maxE maxAge ls [] [] 0 ⟨by simp, by simp⟩
  obtain ⟨ns, hes, _, hmem⟩ := addNew_entries maxE maxAge ls [] [] 0
  obtain ⟨hsub, hcp, _⟩ := copyList_facts maxE nowT prevEntries
    (addNewListings maxE maxAge ls [] [] 0).entryCount
    (addNewListings maxE maxAge ls [] [] 0).listingIds
  unfold buildFeed
  simp only [copy_remaining_entries]
  rw [List.map_append, List.nodup_append]
  refine ⟨hnd, hsub.nodup hnodup, ?_⟩
  intro x hxn hxc
  obtain ⟨e, he, hxe⟩ := List.mem_map.mp hxn
  obtain ⟨y, hy, hxy⟩ := List.mem_map.mp hxc
  obtain ⟨e', he', hye', d, hp, hdni⟩ := hcp y hy
  obtain ⟨d', hd'ne, hd'dig, hshape'⟩ := hshape e' he'
  have hpd' : parse_listing_id e'.id_ = some d' := by
    rw [hshape']
    exact parse_itemTag hd'ne hd'dig
  have hdd : d = d' := by
    rw [hp] at hpd'
    exact Option.some.inj hpd'
  have hxid : x = itemTag d' := by
    rw [← hxy, hye', copy_entry, ← hshape']
  rw [hes] at he
  obtain ⟨l, _, hel, _⟩ := hmem e (by simpa using he)
  have hlid : l.id ∈ (addNewListings maxE maxAge ls [] [] 0).listingIds := by
    refine (hids l.id).mpr ⟨e, ?_, by rw [hel]; rfl⟩
    rw [hes]; simpa using he
  have hxid' : x = itemTag l.id := by rw [← hxe, hel]; rfl
  have : l.id = d' := itemTag_inj (by rw [← hxid', hxid])
  rw [hdd, ← this] at hdni
  exact hdni hlid

/-- Witness for the amended C6 at a concrete input. -/
theorem C6_amended_witness :
    ((buildFeed 4 84 0 (some [sampleEntry "1001"]) [sampleListing "5" 0]).map
        FeedEntry.id).Nodup :=
  C6_nodup_amended 4 84 0 [sampleEntry "1001"] [sampleListing "5" 0]
    (by
      intro e he
      have he' : e = sampleEntry "1001" := by simpa using he
      subst he'
      exact ⟨"1001", by decide, by decide, rfl⟩)
    (by decide)

/-- If every attempt up to the retry budget fails transiently, the retry
loop sleeps 60 seconds between consecutive attempts and finally fails with
the message built from the last underlying error. -/
theorem callApiLoop_allFail {α : Type} (attempt : Nat → AttemptOutcome α) (errs : Nat → String) :
    ∀ (r k : Nat), (∀ j, j ≤ r → attempt (k + j) = .requestError (errs (k + j))) →
      callApiLoop attempt k r
        = (.apiError ("API call failed (" ++ errs (k + r) ++ ")"), List.replicate r 60) := by
  intro r
  induction r with
  | zero =>
    intro k h
    have h0 : attempt k = .requestError (errs k) := by simpa using h 0 (Nat.le_refl 0)
    rw [callApiLoop, h0]
    rfl
  | succ r ih =>
    intro k h
    have h0 : attempt k = .requestError (errs k) := by simpa using h 0 (Nat.zero_le _)
    have hrec := ih (k + 1) (by
      intro j hj
      have hj1 := h (j + 1) (Nat.succ_le_succ hj)
      have harith : k + (j + 1) = (k + 1) + j := by omega
      rwa [harith] at hj1)
    have harith : (k + 1) + r = k + (r + 1) := by omega
    rw [callApiLoop, h0]
    simp only []
    rw [hrec, harith]
    simp [List.replicate_succ]

/-- C7: on persistent transient network failure `call_api` makes the initial
attempt plus 10 retries with a fixed 60-second pause between attempts
(10 pauses), then fails with an `APIException` carrying the last underlying
error; and such a failure is fatal only to the current query — the crawl
yields what the query produced so far, records it as processed, and
continues with the next query (the time budget permitting), leaving the
checkpoint decision to the rest of the run. -/
theorem C7_retry_and_per_query_failure {α : Type}
    (attempt : Nat → AttemptOutcome α) (errs : Nat → String)
    (env : String → QueryResult) (timeUp : Nat → Bool) (q : SearchQuery)
    (qs : List SearchQuery) (i : Nat) (its : List Listing)
    (hfail : ∀ j, j ≤ 10 → attempt j = .requestError (errs j))
    (henv : env q.url = .recoverableError its)
    (ht : timeUp i = false) :
    call_api attempt
        = (.apiError ("API call failed (" ++ errs 10 ++ ")"), List.replicate 10 60)
      ∧ crawlActive env timeUp (q :: qs) i
          = { items := its.map (fun l => (l, q.url)) ++ (crawlActive env timeUp qs (i + 1)).items
              processed := q.url :: (crawlActive env timeUp qs (i + 1)).processed
              checkpoint := (crawlActive env timeUp qs (i + 1)).checkpoint } := by
  constructor
  · have h := callApiLoop_allFail attempt errs 10 0 (by
      intro j hj
      simpa using hfail j hj)
    simpa [call_api] using h
  · rw [crawlActive, henv]
    simp [ht]

/-- Witness for C7 at a concrete input: an oracle that always fails
transiently, and a crawl whose first query fails recoverably. -/
theorem C7_witness :
    call_api attemptAllFail
        = (.apiError ("API call failed (" ++ (fun j => "err" ++ toString j) 10 ++ ")"),
            List.replicate 10 60)
      ∧ crawlActive envRecovAtR timeNever (sampleQuery "r" :: [sampleQuery "s"]) 1
          = { items := [sampleListing "8" 0].map (fun l => (l, (sampleQuery "r").url))
                ++ (crawlActive envRecovAtR timeNever [sampleQuery "s"] (1 + 1)).items
              processed := (sampleQuery "r").url
                :: (crawlActive envRecovAtR timeNever [sampleQuery "s"] (1 + 1)).processed
              checkpoint :=
                (crawlActive envRecovAtR timeNever [sampleQuery "s"] (1 + 1)).checkpoint } :=
  C7_retry_and_per_query_failure attemptAllFail (fun j => "err" ++ toString j) envRecovAtR
    timeNever (sampleQuery "r") [sampleQuery "s"] 1 [sampleListing "8" 0]
    (fun j _ => rfl) (by decide) rfl

/-- C8 counterexample: a run in which no query hits the quota and the time
budget never expires (checked here on the two queries of the list and the
relevant tick indices) still ends with a written checkpoint, because the
feed reaches capacity, `main` breaks, and closing the suspended generator
runs its `finally` block, which saves the in-progress query's url. -/
theorem C8_checkpoint_write_counterexample :
    (mainRun 1 84 0 envTwoAtU1 timeNever [sampleQuery "u1", sampleQuery "u2"]
        none none).checkpoint = some "u1"
      ∧ (envTwoAtU1 "u1").isQuota = false
      ∧ (envTwoAtU1 "u2").isQuota = false
      ∧ timeNever 1 = false ∧ timeNever 2 = false := by
  exact ⟨by decide, by decide, by decide, rfl, rfl⟩

/-- C8 amended: the checkpoint is written when the run halts early on quota
or time-budget exhaustion, and ALSO when the consumer abandons the crawl
because the feed reached capacity (the generator's `finally` then persists
the in-progress query); when none of the three occurs, no path writes a
checkpoint — the run ends with the checkpoint file cleared. -/
theorem C8_checkpoint_write_amended (maxE : Nat) (maxAge : Int) (nowT : Int)
    (env : String → QueryResult) (timeUp : Nat → Bool) (qs : List SearchQuery)
    (checkpoint0 : Option String) (prev : Option (List AtomEntry))
    (hq : ∀ u, (env u).isQuota = false) (ht : ∀ j, timeUp j = false)
    (hbk : mainBroke maxE maxAge env timeUp qs checkpoint0 = false) :
    (mainRun maxE maxAge nowT env timeUp qs checkpoint0 prev).checkpoint = none := by
  have hcp : (get_listings env timeUp qs checkpoint0).checkpoint = none := by
    cases checkpoint0 with
    | none => exact crawlActive_no_halt env timeUp hq ht qs 1
    | some ck => exact crawlSkipping_no_halt env timeUp ck hq ht qs 1
  simp only [mainRun]
  rw [show (addNewListings maxE maxAge
        ((get_listings env timeUp qs checkpoint0).items.map Prod.fst) [] [] 0).broke = false
      from hbk]
  simp [hcp]

/-- Witness for the amended C8 at a concrete input (large enough cap, no
quota, no time budget). -/
theorem C8_amended_witness :
    (mainRun 4 84 0 envTwoAtU1 timeNever [sampleQuery "u1"] none none).checkpoint = none :=
  C8_checkpoint_write_amended 4 84 0 envTwoAtU1 timeNever [sampleQuery "u1"] none none
    (by
      intro u
      by_cases hu : u = "u1" <;> simp [envTwoAtU1, hu, QueryResult.isQuota])
    (fun j => rfl) (by decide)

/-- C9: with a previous feed holding entries for listing ids 1001, 1002,
1003 (in that stored order), a cap of 4, and a run that discovers fresh
listings 1004 then 1005, the output feed is exactly the entries minted for
1004 and 1005 (discovery order) followed by the carried-over entries for
1001 and 1002 — the cap cuts the carry-over after the fourth entry. -/
theorem C9_merge_scenario :
    buildFeed 4 84 0
        (some [sampleEntry "1001", sampleEntry "1002", sampleEntry "1003"])
        [sampleListing "1004" 0, sampleListing "1005" 0]
      = [listingToEntry (sampleListing "1004" 0), listingToEntry (sampleListing "1005" 0),
          copy_entry 0 (sampleEntry "1001"), copy_entry 0 (sampleEntry "1002")] := by
  decide

/-- C10: every entry of the output feed is either minted from a discovered
listing or an unchanged copy of a previous-feed entry whose identifier
matches the tag pattern (`parse_listing_id` succeeds on it); consequently a
previous entry whose identifier fails to parse is never carried into the new
feed, regardless of remaining capacity or identifier collisions. -/
theorem C10_unparseable_entries_dropped (maxE : Nat) (maxAge : Int) (nowT : Int)
    (prevEntries : List AtomEntry) (ls : List Listing) (x : FeedEntry)
    (hx : x ∈ buildFeed maxE maxAge nowT (some prevEntries) ls) :
    (∃ l, l ∈ ls ∧ x = listingToEntry l)
      ∨ ∃ e, e ∈ prevEntries ∧ x = copy_entry nowT e
          ∧ (parse_listing_id e.id_).isSome := by
  unfold buildFeed at hx
  simp only [copy_remaining_entries] at hx
  rcases List.mem_append.mp hx with hx | hx
  · obtain ⟨ns, hes, _, hmem⟩ := addNew_entries maxE maxAge ls [] [] 0
    rw [hes] at hx
    obtain ⟨l, hl, he, _⟩ := hmem x (by simpa using hx)
    have htk := addNew_taken_append maxE maxAge ls [] [] 0
    exact Or.inl ⟨l, by rw [htk]; exact List.mem_append_left _ hl, he⟩
  · obtain ⟨e, he, hxe, d, hp, _⟩ := (copyList_facts maxE nowT prevEntries
      (addNewListings maxE maxAge ls [] [] 0).entryCount
      (addNewListings maxE maxAge ls [] [] 0).listingIds).2.1 x hx
    exact Or.inr ⟨e, he, hxe, by simp [hp]⟩

/-- Witness for C10 at a concrete input: in a run over a previous feed
containing a stray (unparseable) entry and a canonical one, the only entry
of the output is a copy of the canonical one. -/
theorem C10_witness :
    (∃ l, l ∈ ([] : List Listing) ∧ copy_entry 0 (sampleEntry "9") = listingToEntry l)
      ∨ ∃ e, e ∈ [strayEntry, sampleEntry "9"]
          ∧ copy_entry 0 (sampleEntry "9") = copy_entry 0 e
          ∧ (parse_listing_id e.id_).isSome :=
  C10_unparseable_entries_dropped 4 84 0 [strayEntry, sampleEntry "9"] []
    (copy_entry 0 (sampleEntry "9")) (by decide)

end Feedme
